import Mathlib

/-!
Formal model of `scripts/release.py` (Intel Open Image Denoise release
orchestrator).

The script is shallowly embedded as pure Lean functions:

* Strings are handled at the `List Char` level so that every definition is
  structurally recursive and kernel-evaluable on concrete inputs.
* Path manipulation (`os.path.join`, `os.path.basename`, `os.path.dirname`,
  `os.path.commonpath`) is reimplemented faithfully for POSIX-style paths
  (the separator handling the script actually relies on).
* Filesystem and subprocess interaction is modelled by an effect trace:
  every externally visible action (`os.makedirs`, `shutil.rmtree`,
  downloads, extractions, `os.system` commands, the `nm` pipeline, ...)
  is recorded as an `Effect`.  A run of a piece of the script is a value of
  `EM α := List Effect × Except String α`: the effects performed before the
  run ended, and either the produced value or the message of the Python
  exception that aborted it.
* Queries of the ambient environment (does a directory exist, what are the
  members of an archive, what does a directory listing / the `nm` pipeline
  return, does a shell command fail) are supplied by oracles in `Env`,
  mirroring calls like `os.path.isdir` at the point where the script makes
  them.
-/

/-! ## Character-level string primitives -/

/-- Split a character list at every occurrence of a single separator
character.  This is the semantics of Python's `str.split(sep)` for a
one-character separator: `"".split(sep) = ['']`, separators at the ends
produce empty fields. -/
def splitChar (sep : Char) : List Char → List (List Char)
  | [] => [[]]
  | c :: tl =>
    if c = sep then [] :: splitChar sep tl
    else
      match splitChar sep tl with
      | [] => [[c]]
      | p :: rest => (c :: p) :: rest

/-- Worker for `splitPair`: scans the input one character at a time with a
one-character lookahead buffer `pend`, accumulating the current field in
`acc` (reversed).  Occurrences of the two-character separator are consumed
non-overlappingly, left to right, exactly as Python's `str.split` does. -/
def splitPairGo (p0 p1 : Char) : Option Char → List Char → List Char → List (List Char)
  | none, [], acc => [acc.reverse]
  | some cp, [], acc => [(cp :: acc).reverse]
  | none, c :: tl, acc => splitPairGo p0 p1 (some c) tl acc
  | some cp, c :: tl, acc =>
    if cp = p0 ∧ c = p1 then acc.reverse :: splitPairGo p0 p1 none tl []
    else splitPairGo p0 p1 (some c) tl (cp :: acc)

/-- Python `str.split(sep)` for a two-character separator `sep = p0 p1`. -/
def splitPair (p0 p1 : Char) (l : List Char) : List (List Char) :=
  splitPairGo p0 p1 none l []

/-- Does `pat` occur as a contiguous subsequence of `l`?  This is the
semantics of the `fnmatch` pattern `*PAT*` (and of Python's `in` on
strings). -/
def hasSeq (pat : List Char) : List Char → Bool
  | [] => pat.isEmpty
  | c :: tl => pat.isPrefixOf (c :: tl) || hasSeq pat tl

/-- `endsWithL pat l` : does `l` end with `pat`? -/
def endsWithL (pat l : List Char) : Bool :=
  pat.reverse.isPrefixOf l.reverse

/-- Python `s.endswith(pat)` on strings. -/
def endsWithS (pat s : String) : Bool :=
  endsWithL pat.data s.data

/-- Python `s.startswith(pat)` on strings. -/
def startsWithS (pat s : String) : Bool :=
  pat.data.isPrefixOf s.data

/-- Characters treated as whitespace by Python's `str.strip()`. -/
def pyWhitespace (c : Char) : Bool :=
  c = ' ' || c = '\t' || c = '\n' || c = '\r' || c = '\x0b' || c = '\x0c'

/-- Python `str.strip()`: remove leading and trailing whitespace. -/
def pyStrip (s : String) : String :=
  String.mk (((s.data.dropWhile pyWhitespace).reverse.dropWhile pyWhitespace).reverse)

/-- Python `str.lower()` (the script only lowercases the ASCII
configuration names `Debug`/`Release`/`RelWithDebInfo`). -/
def pyLower (s : String) : String :=
  String.mk (s.data.map Char.toLower)

/-- Python slicing `s[:-n]`: drop the last `n` characters. -/
def dropLastChars (n : Nat) (s : String) : String :=
  String.mk (s.data.take (s.data.length - n))

/-- Python slicing `s[n:]`: drop the first `n` characters. -/
def dropFirstChars (n : Nat) (s : String) : String :=
  String.mk (s.data.drop n)

/-- Value of a decimal digit character, if it is one. -/
def digitVal (c : Char) : Option Nat :=
  if '0' ≤ c ∧ c ≤ '9' then some (c.toNat - '0'.toNat) else none

/-- Accumulate a decimal number over a digit list; `none` on the first
non-digit. -/
def decDigitsGo (acc : Nat) : List Char → Option Nat
  | [] => some acc
  | c :: tl =>
    match digitVal c with
    | some d => decDigitsGo (acc * 10 + d) tl
    | none => none

/-- Python `int(s)` restricted to optionally signed decimal literals
(the forms the version components of dynamic symbols can take); `none`
models the `ValueError` Python raises on anything else. -/
def pyInt (s : String) : Option Int :=
  match s.data with
  | [] => none
  | '-' :: tl =>
    match tl with
    | [] => none
    | _ => (decDigitsGo 0 tl).map (fun n => -(n : Int))
  | '+' :: tl =>
    match tl with
    | [] => none
    | _ => (decDigitsGo 0 tl).map (fun n => (n : Int))
  | l => (decDigitsGo 0 l).map (fun n => (n : Int))

/-! ## POSIX path helpers (`os.path`) -/

/-- Join the pieces of a split path back together with `/`. -/
def joinChar (sep : Char) : List (List Char) → List Char
  | [] => []
  | [p] => p
  | p :: ps => p ++ sep :: joinChar sep ps

/-- `os.path.join(a, b)` for a non-absolute second component, which is the
only way the script calls it. -/
def pjoin (a b : String) : String :=
  a ++ "/" ++ b

/-- `os.path.basename`: everything after the last `/`. -/
def basename (s : String) : String :=
  String.mk ((splitChar '/' s.data).getLastD [])

/-- `os.path.dirname`: everything before the last `/`, with trailing
slashes stripped unless the result consists only of slashes. -/
def dirname (p : String) : String :=
  let parts := splitChar '/' p.data
  if parts.length ≤ 1 then ""
  else
    let headChars := joinChar '/' parts.dropLast ++ ['/']
    if headChars.all (· = '/') then String.mk headChars
    else String.mk (headChars.reverse.dropWhile (· = '/')).reverse

/-- Is the path absolute (starts with `/`)? -/
def isAbs (l : List Char) : Bool :=
  match l with
  | '/' :: _ => true
  | _ => false

/-- Path components as used by `os.path.commonpath`: split on `/` and
drop empty and `.` components. -/
def pathComps (l : List Char) : List (List Char) :=
  (splitChar '/' l).filter (fun c => decide (c ≠ [] ∧ c ≠ ['.']))

/-- Longest common prefix of two component lists. -/
def commonPrefixComps (a b : List (List Char)) : List (List Char) :=
  match a, b with
  | x :: xs, y :: ys => if x = y then x :: commonPrefixComps xs ys else []
  | _, _ => []

/-- `os.path.commonpath`: `none` models the `ValueError` raised on an
empty sequence or on a mix of absolute and relative paths. -/
def commonpath (ps : List String) : Option String :=
  match ps with
  | [] => none
  | p :: rest =>
    if rest.all (fun q => isAbs q.data = isAbs p.data) then
      let comps := (p :: rest).map (fun q => pathComps q.data)
      let pre :=
        match comps with
        | [] => []
        | c :: cs => cs.foldl commonPrefixComps c
      let joined := joinChar '/' pre
      some (String.mk (if isAbs p.data then '/' :: joined else joined))
    else none

/-! ## Archive filename patterns -/

/-- Scan for an occurrence of `.tar.` that is followed by at least one
more character, i.e. a position where the regex alternative `\.tar\..+`
can match up to the end of the name. -/
def tarDotScan : List Char → Bool
  | [] => false
  | c :: tl =>
    (['.', 't', 'a', 'r', '.'].isPrefixOf (c :: tl) && decide (5 ≤ tl.length))
      || tarDotScan tl

/-- The tar-detection test of `extract_package`:
`re.search(r'(\.tar(\..+)?|tgz)$', filename)`.  It succeeds exactly when
the name ends in `.tar`, or contains `.tar.` followed by at least one
character reaching the end (`.+` is greedy, so any such occurrence lets
the regex match to `$`), or ends in the three letters `tgz` (the pattern
has no dot before `tgz`).  Filenames are assumed not to contain newline
characters, so the `$` anchor means end of string and `.` matches every
remaining character. -/
def tarRe (s : String) : Bool :=
  endsWithS ".tar" s || tarDotScan s.data || endsWithS "tgz" s

/-- The two archive formats `extract_package` can dispatch to. -/
inductive Fmt
  | tar
  | zip
deriving DecidableEq

/-- Format detection of `extract_package` (lines 33-40): the tar regex is
tried first, then the `.zip` suffix; `none` means the
`'unsupported package format'` exception. -/
def detectFormat (filename : String) : Option Fmt :=
  if tarRe filename then some Fmt.tar
  else if endsWithS ".zip" filename then some Fmt.zip
  else none

/-- The suffix test of the `re.sub(r'\.(tar(\..*)?|zip)$', '', ...)` call
used to compute the extracted directory name: does the remainder `l` of
the filename match the pattern up to the end?  (`\..*` may be empty, so
any remainder starting with `.tar.` matches.) -/
def pkgSuffixMatch (l : List Char) : Bool :=
  (l == ".tar".data) || (".tar.".data.isPrefixOf l) || (l == ".zip".data)

/-- Scan for the leftmost position where the package-suffix pattern
matches to the end of the name, and cut the name there (the semantics of
`re.sub` with a `$`-anchored pattern). -/
def stripScan : List Char → List Char
  | [] => []
  | c :: tl => if pkgSuffixMatch (c :: tl) then [] else c :: stripScan tl

/-- `re.sub(r'\.(tar(\..*)?|zip)$', '', package_filename)` (line 207). -/
def stripPackageSuffix (s : String) : String :=
  String.mk (stripScan s.data)

/-! ## Effects and the run monad -/

/-- Externally visible actions of the script, in the order performed. -/
inductive Effect
  | makedirs (dir : String)
  | mkdir (dir : String)
  | chdir (dir : String)
  | rmtree (dir : String)
  | removeFile (path : String)
  | download (url : String) (dest : String)
  | extract (archive : String) (outputDir : String)
  | runCmd (cmd : String)
  | createTarGz (archive : String) (inputDir : String) (arcname : String)
  | createZip (base : String) (rootDir : String) (baseDir : String)
  | nmPipe (file : String) (label : String)
deriving DecidableEq

/-- A run of a fragment of the script: the effect trace it produced and
either its result or the message of the exception that aborted it. -/
abbrev EM (α : Type) : Type :=
  List Effect × Except String α

/-- Sequencing of runs: on success the traces concatenate; an exception
keeps the trace produced so far and aborts the continuation. -/
def EM.bind {α β : Type} (x : EM α) (f : α → EM β) : EM β :=
  match x.2 with
  | Except.ok a => (x.1 ++ (f a).1, (f a).2)
  | Except.error e => (x.1, Except.error e)

instance : Monad EM where
  pure a := ([], Except.ok a)
  bind := EM.bind

/-- Record one effect. -/
def EM.emit (e : Effect) : EM Unit :=
  ([e], Except.ok ())

/-- Raise a Python exception with the given message. -/
def EM.throw {α : Type} (msg : String) : EM α :=
  ([], Except.error msg)

/-! ## Python list comparison and symbol checking (`check_symbols`) -/

/-- Python's `<` on integer lists: lexicographic, with a strict prefix
ranking below the longer list. -/
def pyListLt : List Int → List Int → Bool
  | _, [] => false
  | [], _ :: _ => true
  | a :: as, b :: bs => a < b || (a == b && pyListLt as bs)

/-- Python's `>` on integer lists, as used in `version > list(max_version)`
(line 68): `x > y` iff `y < x`. -/
def pyListGt (xs ys : List Int) : Bool :=
  pyListLt ys xs

/-- Parsing of one line of the `nm | tr | grep` pipeline output
(lines 64-67):
`symbol = line.strip()`, `_, version = symbol.split('@@')`,
`_, version = version.split('_')`,
`version = [int(v) for v in version.split('.')]`.
Any unpacking mismatch or non-numeric component is a Python exception
(`ValueError`), modelled by the error case. -/
def parseSymbolLine (line : String) : Except String (String × List Int) :=
  let symbol := pyStrip line
  match splitPair '@' '@' symbol.data with
  | [_, v1] =>
    match splitChar '_' v1 with
    | [_, v2] =>
      match (splitChar '.' v2).mapM (fun c => pyInt (String.mk c)) with
      | some version => Except.ok (symbol, version)
      | none => Except.error "ValueError"
    | _ => Except.error "ValueError"
  | _ => Except.error "ValueError"

/-- The loop body of `check_symbols` (lines 63-69) over the lines produced
by the `nm`/`grep` pipeline: parse each symbol's version and raise
`'problematic symbol ...'` on the first one greater than `max_version`. -/
def check_symbols_lines (filename : String) (lines : List String)
    (maxVersion : List Int) : Except String Unit :=
  match lines with
  | [] => Except.ok ()
  | l :: ls =>
    match parseSymbolLine l with
    | Except.error e => Except.error e
    | Except.ok (symbol, version) =>
      if pyListGt version maxVersion then
        Except.error ("problematic symbol " ++ symbol ++ " in " ++ basename filename)
      else check_symbols_lines filename ls maxVersion

/-! ## Platform and environment oracles -/

/-- The three platforms the script distinguishes (line 79). -/
inductive OS
  | windows
  | linux
  | macos
deriving DecidableEq

/-- The per-platform compiler allow-lists (lines 82-84). -/
def compilers (os : OS) : List String :=
  match os with
  | OS.windows => ["msvc15", "msvc15-icc18", "msvc15-icc19", "msvc15-icc20",
                   "msvc16", "msvc16-icc19", "msvc16-icc20"]
  | OS.linux => ["gcc", "clang", "icc"]
  | OS.macos => ["clang", "icc"]

/-- Inputs of one run of `main`: the parsed command line, the consulted
environment variables, and oracles answering the script's queries of the
filesystem, the archives it opens, and the shell commands it runs.  An
oracle is consulted exactly where the script performs the corresponding
call. -/
structure Env where
  os : OS
  compiler : String
  config : String
  wrapper : Option String
  cmakeVars : List String
  stageBuild : Bool
  stagePackage : Bool
  rootDir : String
  iccDir : Option String
  signFile : Option String
  isdir : String → Bool
  isfile : String → Bool
  islink : String → Bool
  runFails : String → Bool
  members : String → List String
  listing : String → List String
  nm : String → String → List String

/-! ## The script's procedures as effect-trace functions -/

/-- `run(command)` (lines 20-22): execute the shell command; a non-zero
exit status (as answered by the `runFails` oracle) raises
`'non-zero return value'`. -/
def runCommand (env : Env) (command : String) : EM Unit :=
  ([Effect.runCmd command],
   if env.runFails command then Except.error "non-zero return value" else Except.ok ())

/-- `download_file(url, output_dir)` (lines 24-28). -/
def download_file (url outputDir : String) : EM String :=
  let filename := pjoin outputDir (basename url)
  ([Effect.download url filename], Except.ok filename)

/-- `extract_package(filename, output_dir)` (lines 30-49): detect the
format by filename (else `'unsupported package format'`), list the
members, shift the target up one level when the common path of the
members equals the basename of the output directory, create the target
directory when absent, extract. -/
def extract_package (env : Env) (filename outputDir : String) : EM Unit :=
  match detectFormat filename with
  | none => EM.throw "unsupported package format"
  | some _ =>
    match commonpath (env.members filename) with
    | none => EM.throw "ValueError"
    | some cp =>
      let outDir := if cp = basename outputDir then dirname outputDir else outputDir
      EM.bind (if env.isdir outDir then pure () else EM.emit (Effect.makedirs outDir))
        (fun _ => EM.emit (Effect.extract filename outDir))

/-- `create_package(filename, input_dir)` (lines 51-59): a `.tar.gz` name
archives `input_dir` under its basename, a `.zip` name calls
`shutil.make_archive(filename[:-4], 'zip', dirname, basename)`, anything
else raises `'unsupported package format'`. -/
def create_package (filename inputDir : String) : EM Unit :=
  if endsWithS ".tar.gz" filename then
    ([Effect.createTarGz filename inputDir (basename inputDir)], Except.ok ())
  else if endsWithS ".zip" filename then
    ([Effect.createZip (dropLastChars 4 filename) (dirname inputDir) (basename inputDir)],
     Except.ok ())
  else EM.throw "unsupported package format"

/-- `check_symbols(filename, label, max_version)` (lines 61-69): run the
`nm | tr | grep @@LABEL_` pipeline (one recorded effect; its output is
given by the `nm` oracle) and scan the lines. -/
def check_symbols (env : Env) (filename label : String) (maxVersion : List Int) : EM Unit :=
  ([Effect.nmPipe filename label],
   check_symbols_lines filename (env.nm filename label) maxVersion)

/-- The GLIBC ceiling `(2, 17, 0)` of `check_symbols_linux` (line 73). -/
def glibcMax : List Int := [2, 17, 0]

/-- The GLIBCXX ceiling `(3, 4, 19)` (line 74). -/
def glibcxxMax : List Int := [3, 4, 19]

/-- The CXXABI ceiling `(1, 3, 7)` (line 75). -/
def cxxabiMax : List Int := [1, 3, 7]

/-- `check_symbols_linux(filename)` (lines 71-75). -/
def check_symbols_linux (env : Env) (filename : String) : EM Unit := do
  check_symbols env filename "GLIBC" glibcMax
  check_symbols env filename "GLIBCXX" glibcxxMax
  check_symbols env filename "CXXABI" cxxabiMax

/-! ## Dependency provisioning (build stage, lines 106-130) -/

/-- `ISPC_VERSION` (line 17). -/
def ISPC_VERSION : String := "1.13.0"

/-- `TBB_VERSION` (line 18). -/
def TBB_VERSION : String := "2020.2"

/-- The per-platform ISPC release name (lines 107-108). -/
def ispcRelease (os : OS) : String :=
  "ispc-v" ++ ISPC_VERSION ++ "-" ++
    (match os with
     | OS.windows => "windows"
     | OS.linux => "linux"
     | OS.macos => "macOS")

/-- The per-platform TBB release name (lines 120-121). -/
def tbbRelease (os : OS) : String :=
  "tbb-" ++ TBB_VERSION ++ "-" ++
    (match os with
     | OS.windows => "win"
     | OS.linux => "lin"
     | OS.macos => "mac")

/-- ISPC provisioning (lines 106-117): if the per-platform directory under
`deps_dir` is absent, download the release archive, extract it into the
directory, delete the archive; return `os.path.join(ispc_dir, 'bin', 'ispc')`. -/
def setupISPC (env : Env) (depsDir : String) : EM String := do
  let rel := ispcRelease env.os
  let dir := pjoin depsDir rel
  (if env.isdir dir then pure () else do
    let url := "https://github.com/ispc/ispc/releases/download/v" ++ ISPC_VERSION ++ "/"
      ++ rel ++ (if env.os = OS.windows then ".zip" else ".tar.gz")
    let fn ← download_file url depsDir
    extract_package env fn dir
    EM.emit (Effect.removeFile fn))
  pure (pjoin (pjoin dir "bin") "ispc")

/-- TBB provisioning (lines 119-130): same shape as ISPC, unix archives
use the `.tgz` suffix; returns `os.path.join(tbb_dir, 'tbb')`. -/
def setupTBB (env : Env) (depsDir : String) : EM String := do
  let rel := tbbRelease env.os
  let dir := pjoin depsDir rel
  (if env.isdir dir then pure () else do
    let url := "https://github.com/oneapi-src/oneTBB/releases/download/v" ++ TBB_VERSION ++ "/"
      ++ rel ++ (if env.os = OS.windows then ".zip" else ".tgz")
    let fn ← download_file url depsDir
    extract_package env fn dir
    EM.emit (Effect.removeFile fn))
  pure (pjoin dir "tbb")

/-! ## Build stage (lines 104-189) -/

/-- The `{'gcc' : 'g++', 'clang' : 'clang++', 'icc' : 'icpc'}` lookup
(line 167); `none` models the `KeyError`. -/
def cxxTable (c : String) : Option String :=
  if c = "gcc" then some "g++"
  else if c = "clang" then some "clang++"
  else if c = "icc" then some "icpc"
  else none

/-- The `{'msvc15' : '15 2017', 'msvc16' : '16 2019'}` lookup (line 149);
`none` models the `KeyError`. -/
def msvcTable (c : String) : Option String :=
  if c = "msvc15" then some "15 2017"
  else if c = "msvc16" then some "16 2019"
  else none

/-- The compiler loop of the Windows branch (lines 146-152): fold over the
`-`-separated components of the compiler name, recording the MSVC
generator version (`none` while unassigned, mirroring the unbound
`msvc_version` variable) and the ICC toolchain string. -/
def winToolchainGo : List String → Option String → String →
    Except String (Option String × String)
  | [], mv, tc => Except.ok (mv, tc)
  | comp :: rest, mv, tc =>
    if startsWithS "msvc" comp then
      match msvcTable comp with
      | some v => winToolchainGo rest (some v) tc
      | none => Except.error "KeyError"
    else if startsWithS "icc" comp then
      winToolchainGo rest mv ("Intel C++ Compiler " ++ dropFirstChars 3 comp ++ ".0")
    else winToolchainGo rest mv tc

/-- The build stage (lines 104-189): provision ISPC and TBB, recreate a
clean build directory, assemble and run the platform-specific configure
command, then run the build command (prefixed by the optional wrapper). -/
def buildStage (env : Env) (depsDir buildDir : String) : EM Unit := do
  let ispcExecutable ← setupISPC env depsDir
  let tbbRoot ← setupTBB env depsDir
  (if env.isdir buildDir then EM.emit (Effect.rmtree buildDir) else pure ())
  EM.emit (Effect.mkdir buildDir)
  EM.emit (Effect.chdir buildDir)
  let cmakeVars := "-D TBB_ROOT=\"" ++ tbbRoot ++ "\" " ++
    String.join (env.cmakeVars.map (fun v => "-D " ++ v ++ " "))
  let buildCmd ←
    (if env.os = OS.windows then
      match winToolchainGo (splitChar '-' env.compiler.data |>.map String.mk) none "" with
      | Except.error e => EM.throw e
      | Except.ok (none, _) => EM.throw "NameError"
      | Except.ok (some mv, tc) => do
        runCommand env ("cmake -L " ++ "-G \"Visual Studio " ++ mv ++ " Win64\" "
          ++ "-T \"" ++ tc ++ "\" "
          ++ "-D ISPC_EXECUTABLE=\"" ++ ispcExecutable ++ ".exe\" "
          ++ cmakeVars ++ "..")
        pure ("cmake --build . --config " ++ env.config ++ " --target ALL_BUILD")
    else
      match cxxTable env.compiler with
      | none => EM.throw "KeyError"
      | some cxx0 => do
        let pair :=
          if env.compiler = "icc" then
            match env.iccDir with
            | some d => (pjoin d env.compiler, pjoin d cxx0)
            | none => (env.compiler, cxx0)
          else (env.compiler, cxx0)
        runCommand env ("cmake -L " ++ "-D CMAKE_C_COMPILER:FILEPATH=\"" ++ pair.1 ++ "\" "
          ++ "-D CMAKE_CXX_COMPILER:FILEPATH=\"" ++ pair.2 ++ "\" "
          ++ "-D CMAKE_BUILD_TYPE=" ++ env.config ++ " "
          ++ "-D ISPC_EXECUTABLE=\"" ++ ispcExecutable ++ "\" "
          ++ cmakeVars ++ "..")
        pure "cmake --build . --target preinstall -- -j VERBOSE=1")
  let buildCmd2 :=
    match env.wrapper with
    | some w => w ++ " " ++ buildCmd
    | none => buildCmd
  runCommand env buildCmd2

/-! ## Package stage (lines 191-233) -/

/-- `glob(os.path.join(build_dir, 'oidn-*'))` (line 205): the entries of
the build directory whose names start with `oidn-`, as full paths. -/
def globOidn (env : Env) (dir : String) : List String :=
  ((env.listing dir).filter (fun n => startsWithS "oidn-" n)).map (fun n => pjoin dir n)

/-- Binary discovery (lines 209-215): `bin/*` always, `lib/*.so*` on
Linux, `lib/*.dylib` on macOS (a leading `*` in a glob never matches a
hidden name), then keep only regular files that are not symbolic links. -/
def discoverBinaries (env : Env) (packageDir : String) : List String :=
  let binDir := pjoin packageDir "bin"
  let libDir := pjoin packageDir "lib"
  let fromBin := ((env.listing binDir).filter (fun n => !(startsWithS "." n))).map
    (fun n => pjoin binDir n)
  let all := fromBin ++
    (if env.os = OS.linux then
      ((env.listing libDir).filter
        (fun n => !(startsWithS "." n) && hasSeq ".so".data n.data)).map
        (fun n => pjoin libDir n)
    else if env.os = OS.macos then
      ((env.listing libDir).filter
        (fun n => !(startsWithS "." n) && endsWithS ".dylib" n)).map
        (fun n => pjoin libDir n)
    else [])
  all.filter (fun f => env.isfile f && !(env.islink f))

/-- The signing command `f'{sign_file} -q -vv {filename}'` (line 226). -/
def signCmd (sf f : String) : String :=
  sf ++ " -q -vv " ++ f

/-- The package stage (lines 191-233): reconfigure in zip mode, build the
package target, take the first `oidn-*` glob match (`IndexError` when
there is none), extract it next to itself, discover the binaries, check
their symbols on Linux, optionally sign and repack, and finally delete
the extracted directory. -/
def packageStage (env : Env) (buildDir : String) : EM Unit := do
  EM.emit (Effect.chdir buildDir)
  runCommand env "cmake -L -D OIDN_ZIP_MODE=ON .."
  (if env.os = OS.windows then
    runCommand env ("cmake --build . --config " ++ env.config ++ " --target PACKAGE")
  else
    runCommand env "cmake --build . --target package -- -j VERBOSE=1")
  match globOidn env buildDir with
  | [] => EM.throw "list index out of range"
  | packageFilename :: _ => do
    extract_package env packageFilename buildDir
    let packageDir := stripPackageSuffix packageFilename
    let binaries := discoverBinaries env packageDir
    (if env.os = OS.linux then binaries.forM (fun f => check_symbols_linux env f)
     else pure ())
    (match env.signFile with
     | some sf => do
       binaries.forM (fun f => runCommand env (signCmd sf f))
       EM.emit (Effect.removeFile packageFilename)
       create_package packageFilename packageDir
     | none => pure ())
    EM.emit (Effect.rmtree packageDir)

/-- `main()` (lines 77-233): resolve the root directory, ensure the deps
directory exists, compute the build directory, then run the requested
stages. -/
def mainModel (env : Env) : EM Unit := do
  let depsDir := pjoin env.rootDir "deps"
  (if env.isdir depsDir then pure () else EM.emit (Effect.makedirs depsDir))
  let buildDir := pjoin env.rootDir ("build_" ++ pyLower env.config)
  (if env.stageBuild then buildStage env depsDir buildDir else pure ())
  if env.stagePackage then packageStage env buildDir else pure ()

/-! ## Derived predicates and concrete runs used in the verification -/

deriving instance DecidableEq for Except

/-- Shape of every effect the package stage can emit: used to delimit
what the stage can do in any outcome (in particular, which archive an
`extract` effect can name, and that `nm` pipelines only run on Linux). -/
def packageEffectShape (env : Env) (bd : String) (e : Effect) : Prop :=
  e = Effect.chdir bd ∨ (∃ c, e = Effect.runCmd c) ∨ (∃ d, e = Effect.makedirs d) ∨
  (∃ p ps d, globOidn env bd = p :: ps ∧ e = Effect.extract p d) ∨
  (env.os = OS.linux ∧ ∃ a b, e = Effect.nmPipe a b) ∨
  (∃ f, e = Effect.removeFile f) ∨
  (∃ a b c, e = Effect.createTarGz a b c) ∨ (∃ a b c, e = Effect.createZip a b c) ∨
  (∃ d, e = Effect.rmtree d)

/-- The tar-family suffix pattern in the specification's words: a name
ending in `.tar`, a compressed tar variant `.tar.<something>`, or a name
ending in `.tgz` (with the dot). -/
def specTarFamilyPattern (s : String) : Bool :=
  endsWithS ".tar" s || tarDotScan s.data || endsWithS ".tgz" s

/-- The tar-family pattern the code actually implements, stated
declaratively: the last alternative is the bare three letters `tgz`,
with no dot required before them. -/
def amendedTarFamily (s : String) : Prop :=
  endsWithS ".tar" s = true ∨
  (∃ a b : List Char, s.data = a ++ ['.', 't', 'a', 'r', '.'] ++ b ∧ b ≠ []) ∨
  endsWithS "tgz" s = true

/-- A concrete Linux run used to exercise the model: the package stage is
requested, one `oidn-` archive is present in the build directory, its
extracted tree contains one binary, every shell command succeeds, no
symbol exceeds its ceiling, and a signing tool is configured. -/
def envLinux : Env where
  os := OS.linux
  compiler := "clang"
  config := "Release"
  wrapper := none
  cmakeVars := []
  stageBuild := false
  stagePackage := true
  rootDir := "r"
  iccDir := none
  signFile := some "sign"
  isdir := fun _ => true
  isfile := fun _ => true
  islink := fun _ => false
  runFails := fun _ => false
  members := fun _ => ["oidn-1.0"]
  listing := fun d =>
    if d = "r/build_release" then ["oidn-1.0.tar.gz"]
    else if d = "r/build_release/oidn-1.0/bin" then ["denoise"]
    else []
  nm := fun _ _ => []

/-- `envLinux` with a signing command that exits with a non-zero status. -/
def envSignFail : Env :=
  { envLinux with
    runFails := fun c => c = signCmd "sign" "r/build_release/oidn-1.0/bin/denoise" }

/-- `envLinux` with an empty build-directory listing, so the package glob
finds nothing. -/
def envNoPkg : Env :=
  { envLinux with listing := fun _ => [] }

/-- `envLinux` with no stage requested and no pre-existing directories. -/
def envNoStage : Env :=
  { envLinux with stagePackage := false, isdir := fun _ => false }

/-! ## General lemmas about the embedding -/

theorem EM.bind_eq {α β : Type} (x : EM α) (f : α → EM β) : x >>= f = EM.bind x f := rfl

theorem EM.pure_eq {α : Type} (a : α) : (pure a : EM α) = ([], Except.ok a) := rfl

theorem EM.bind_mk_ok {α β : Type} (es : List Effect) (a : α) (f : α → EM β) :
    EM.bind (es, Except.ok a) f = (es ++ (f a).1, (f a).2) := rfl

theorem EM.bind_mk_error {α β : Type} (es : List Effect) (m : String) (f : α → EM β) :
    EM.bind (es, Except.error m) f = (es, Except.error m) := rfl

theorem EM.bind_tail {α β : Type} {x : EM α} {f : α → EM β} {e : Effect} {b : β} (a : α)
    (hx : x.2 = Except.ok a) (hf : ∃ es, f a = (es ++ [e], Except.ok b)) :
    ∃ es, EM.bind x f = (es ++ [e], Except.ok b) := by
  obtain ⟨es, hes⟩ := hf
  refine ⟨x.1 ++ es, ?_⟩
  unfold EM.bind
  rw [hx]
  simp [hes]

theorem EM.forall_mem_bind {α β : Type} {P : Effect → Prop} {x : EM α} {f : α → EM β}
    (hx : ∀ e ∈ x.1, P e) (hf : ∀ a, x.2 = Except.ok a → ∀ e ∈ (f a).1, P e) :
    ∀ e ∈ (EM.bind x f).1, P e := by
  unfold EM.bind
  cases h : x.2 with
  | ok a =>
    intro e he
    simp only [List.mem_append] at he
    rcases he with he | he
    · exact hx e he
    · exact hf a h e he
  | error m => exact hx

theorem EM.mem_bind_left {α β : Type} {x : EM α} {f : α → EM β} {e : Effect}
    (h : e ∈ x.1) : e ∈ (EM.bind x f).1 := by
  unfold EM.bind
  cases hx : x.2 <;> simp [h]

theorem EM.mem_bind_right {α β : Type} {x : EM α} {f : α → EM β} {e : Effect} {a : α}
    (hx : x.2 = Except.ok a) (h : e ∈ (f a).1) : e ∈ (EM.bind x f).1 := by
  unfold EM.bind
  rw [hx]
  simp [h]

theorem EM.forM_nil {g : String → EM Unit} : List.forM [] g = ([], Except.ok ()) := rfl

theorem EM.forM_cons {g : String → EM Unit} {b : String} {l : List String} :
    List.forM (b :: l) g = EM.bind (g b) (fun _ => List.forM l g) := rfl

theorem EM.forM_ok {g : String → EM Unit} {l : List String}
    (h : ∀ b ∈ l, (g b).2 = Except.ok ()) :
    ∃ es, List.forM l g = (es, Except.ok ()) ∧ ∀ e ∈ es, ∃ b ∈ l, e ∈ (g b).1 := by
  induction l with
  | nil => exact ⟨[], rfl, by simp⟩
  | cons c tl ih =>
    obtain ⟨es, hes, hmem⟩ := ih (fun b hb => h b (List.mem_cons_of_mem c hb))
    have hc : (g c).2 = Except.ok () := h c (List.mem_cons_self c tl)
    refine ⟨(g c).1 ++ es, ?_, ?_⟩
    · rw [EM.forM_cons]
      unfold EM.bind
      rw [hc, hes]
    · intro e he
      rcases List.mem_append.mp he with he | he
      · exact ⟨c, List.mem_cons_self c tl, he⟩
      · obtain ⟨b, hb, hbe⟩ := hmem e he
        exact ⟨b, List.mem_cons_of_mem c hb, hbe⟩

theorem EM.forM_mem {g : String → EM Unit} {l : List String} {b : String} {e : Effect}
    (h : ∀ x ∈ l, (g x).2 = Except.ok ()) (hb : b ∈ l) (he : e ∈ (g b).1) :
    e ∈ (List.forM l g).1 := by
  induction l with
  | nil => cases hb
  | cons c tl ih =>
    rw [EM.forM_cons]
    rcases List.mem_cons.mp hb with rfl | hb2
    · exact EM.mem_bind_left he
    · exact EM.mem_bind_right (h c (List.mem_cons_self c tl))
        (ih (fun x hx => h x (List.mem_cons_of_mem c hx)) hb2)

theorem EM.forM_effects_elim {g : String → EM Unit} {l : List String} {e : Effect}
    (he : e ∈ (List.forM l g).1) : ∃ b ∈ l, e ∈ (g b).1 := by
  induction l with
  | nil => cases he
  | cons c tl ih =>
    rw [EM.forM_cons] at he
    unfold EM.bind at he
    revert he
    cases hc : (g c).2 with
    | ok a =>
      intro he
      rcases List.mem_append.mp he with he | he
      · exact ⟨c, List.mem_cons_self c tl, he⟩
      · obtain ⟨b, hb, hbe⟩ := ih he
        exact ⟨b, List.mem_cons_of_mem c hb, hbe⟩
    | error m =>
      intro he
      exact ⟨c, List.mem_cons_self c tl, he⟩

theorem pyListLt_iff_lex (xs ys : List Int) :
    pyListLt xs ys = true ↔ List.Lex (· < ·) xs ys := by
  induction xs generalizing ys with
  | nil =>
    cases ys with
    | nil =>
      simp only [pyListLt]
      constructor
      · intro h
        cases h
      · intro h
        cases h
    | cons b bs =>
      simp only [pyListLt]
      constructor
      · intro _
        exact List.Lex.nil
      · intro _
        trivial
  | cons a as ih =>
    cases ys with
    | nil =>
      simp only [pyListLt]
      constructor
      · intro h
        cases h
      · intro h
        cases h
    | cons b bs =>
      simp only [pyListLt, Bool.or_eq_true, Bool.and_eq_true, decide_eq_true_eq, beq_iff_eq]
      constructor
      · rintro (hab | ⟨rfl, h⟩)
        · exact List.Lex.rel hab
        · exact List.Lex.cons ((ih bs).mp h)
      · intro h
        cases h with
        | rel hab => exact Or.inl hab
        | cons h => exact Or.inr ⟨rfl, (ih bs).mpr h⟩

theorem pyListLt_take (c : List Int) (k : Nat) : pyListLt c (c.take k) = false := by
  induction c generalizing k with
  | nil => cases k <;> rfl
  | cons a as ih =>
    cases k with
    | zero => rfl
    | succ k2 =>
      simp only [List.take, pyListLt]
      simp [ih k2]

theorem tarDotScan_iff (l : List Char) :
    tarDotScan l = true ↔
      ∃ a b : List Char, l = a ++ ['.', 't', 'a', 'r', '.'] ++ b ∧ b ≠ [] := by
  induction l with
  | nil => simp [tarDotScan]
  | cons c tl ih =>
    simp only [tarDotScan, Bool.or_eq_true, Bool.and_eq_true, decide_eq_true_eq]
    constructor
    · rintro (⟨hpre, hlen⟩ | h)
      · obtain ⟨t, ht⟩ := List.isPrefixOf_iff_prefix.mp hpre
        refine ⟨[], t, by rw [List.nil_append, ht], ?_⟩
        have hlen2 : (['.', 't', 'a', 'r', '.'] ++ t).length = (c :: tl).length := by rw [ht]
        simp only [List.length_append, List.length_cons] at hlen2
        intro hnil
        subst hnil
        simp at hlen2
        omega
      · obtain ⟨a, b, hab, hb⟩ := ih.mp h
        exact ⟨c :: a, b, by simp [hab], hb⟩
    · rintro ⟨a, b, hab, hb⟩
      cases a with
      | nil =>
        left
        simp only [List.nil_append] at hab
        constructor
        · rw [hab]
          exact List.isPrefixOf_iff_prefix.mpr ⟨b, rfl⟩
        · have hlen2 : (c :: tl).length = (['.', 't', 'a', 'r', '.'] ++ b).length := by rw [hab]
          simp only [List.length_append, List.length_cons] at hlen2
          have hbpos : 1 ≤ b.length := List.length_pos.mpr hb
          omega
      | cons c2 a2 =>
        right
        apply ih.mpr
        simp only [List.cons_append, List.cons.injEq] at hab
        exact ⟨a2, b, hab.2, hb⟩

theorem runCommand_ok {env : Env} {c : String} (h : env.runFails c = false) :
    runCommand env c = ([Effect.runCmd c], Except.ok ()) := by
  simp [runCommand, h]

theorem runCommand_effects (env : Env) (c : String) :
    (runCommand env c).1 = [Effect.runCmd c] := rfl

theorem extract_package_ok {env : Env} {fn od : String} {fmt : Fmt} {cp : String}
    (hfmt : detectFormat fn = some fmt) (hcp : commonpath (env.members fn) = some cp) :
    extract_package env fn od =
      ((if env.isdir (if cp = basename od then dirname od else od) then []
        else [Effect.makedirs (if cp = basename od then dirname od else od)]) ++
        [Effect.extract fn (if cp = basename od then dirname od else od)],
       Except.ok ()) := by
  unfold extract_package
  rw [hfmt, hcp]
  by_cases h : env.isdir (if cp = basename od then dirname od else od) <;>
    simp [h, EM.bind, EM.emit, EM.pure_eq]

theorem extract_package_effects (env : Env) (fn od : String) :
    ∀ e ∈ (extract_package env fn od).1,
      (∃ d, e = Effect.extract fn d) ∨ (∃ d, e = Effect.makedirs d) := by
  unfold extract_package
  cases hf : detectFormat fn with
  | none => intro e he; cases he
  | some fmt =>
    cases hc : commonpath (env.members fn) with
    | none => intro e he; cases he
    | some cp =>
      by_cases h : env.isdir (if cp = basename od then dirname od else od)
      · intro e he
        simp [h, EM.bind, EM.emit, EM.pure_eq] at he
        exact Or.inl ⟨_, he⟩
      · intro e he
        simp [h, EM.bind, EM.emit, EM.pure_eq] at he
        rcases he with he | he
        · exact Or.inr ⟨_, he⟩
        · exact Or.inl ⟨_, he⟩

theorem create_package_ok {fn : String} (d : String)
    (h : endsWithS ".tar.gz" fn = true ∨ endsWithS ".zip" fn = true) :
    ∃ es, create_package fn d = (es, Except.ok ()) := by
  by_cases h1 : endsWithS ".tar.gz" fn = true
  · exact ⟨[Effect.createTarGz fn d (basename d)], by simp [create_package, h1]⟩
  · have h2 : endsWithS ".zip" fn = true := by
      rcases h with h | h
      · exact absurd h h1
      · exact h
    refine ⟨[Effect.createZip (dropLastChars 4 fn) (dirname d) (basename d)], ?_⟩
    simp only [create_package, h2]
    rw [if_neg h1]
    simp

theorem create_package_effects (fn d : String) :
    ∀ e ∈ (create_package fn d).1,
      (∃ a b c, e = Effect.createTarGz a b c) ∨ (∃ a b c, e = Effect.createZip a b c) := by
  unfold create_package
  by_cases h1 : endsWithS ".tar.gz" fn
  · intro e he
    simp [h1] at he
    exact Or.inl ⟨_, _, _, he⟩
  · by_cases h2 : endsWithS ".zip" fn
    · intro e he
      simp [h1, h2] at he
      exact Or.inr ⟨_, _, _, he⟩
    · intro e he
      simp [h1, h2, EM.throw] at he

theorem check_symbols_linux_effects (env : Env) (f : String) :
    ∀ e ∈ (check_symbols_linux env f).1, ∃ a b, e = Effect.nmPipe a b := by
  unfold check_symbols_linux
  apply EM.forall_mem_bind
  · intro e he
    simp [check_symbols] at he
    exact ⟨_, _, he⟩
  · intro _ _
    apply EM.forall_mem_bind
    · intro e he
      simp [check_symbols] at he
      exact ⟨_, _, he⟩
    · intro _ _ e he
      simp [check_symbols] at he
      exact ⟨_, _, he⟩

theorem check_symbols_linux_glibc_mem (env : Env) (f : String) :
    Effect.nmPipe f "GLIBC" ∈ (check_symbols_linux env f).1 := by
  unfold check_symbols_linux
  apply EM.mem_bind_left
  simp [check_symbols]

theorem packageStage_effects (env : Env) (bd : String) :
    ∀ e ∈ (packageStage env bd).1, packageEffectShape env bd e := by
  cases hsf : env.signFile with
  | none =>
    unfold packageStage
    simp only [EM.bind_eq, hsf]
    apply EM.forall_mem_bind
    · intro e he
      simp [EM.emit] at he
      exact Or.inl he
    · intro _ _
      apply EM.forall_mem_bind
      · intro e he
        simp [runCommand] at he
        exact Or.inr (Or.inl ⟨_, he⟩)
      · intro _ _
        apply EM.forall_mem_bind
        · intro e he
          by_cases hw : env.os = OS.windows <;> simp [hw, runCommand] at he <;>
            exact Or.inr (Or.inl ⟨_, he⟩)
        · intro _ _
          cases hg : globOidn env bd with
          | nil => intro e he; cases he
          | cons p ps =>
            apply EM.forall_mem_bind
            · intro e he
              rcases extract_package_effects env p bd e he with ⟨d, rfl⟩ | ⟨d, rfl⟩
              · exact Or.inr (Or.inr (Or.inr (Or.inl ⟨p, ps, d, hg, rfl⟩)))
              · exact Or.inr (Or.inr (Or.inl ⟨d, rfl⟩))
            · intro _ _
              apply EM.forall_mem_bind
              · intro e he
                by_cases hl : env.os = OS.linux
                · simp only [hl, if_true] at he
                  obtain ⟨b, _, hbe⟩ := EM.forM_effects_elim he
                  obtain ⟨a2, b2, rfl⟩ := check_symbols_linux_effects env b e hbe
                  exact Or.inr (Or.inr (Or.inr (Or.inr (Or.inl ⟨hl, a2, b2, rfl⟩))))
                · simp [hl, EM.pure_eq] at he
              · intro _ _
                apply EM.forall_mem_bind
                · intro e he
                  simp [EM.pure_eq] at he
                · intro _ _ e he
                  simp [EM.emit] at he
                  exact Or.inr (Or.inr (Or.inr (Or.inr (Or.inr (Or.inr (Or.inr (Or.inr ⟨_, he⟩)))))))
  | some sf =>
    unfold packageStage
    simp only [EM.bind_eq, hsf]
    apply EM.forall_mem_bind
    · intro e he
      simp [EM.emit] at he
      exact Or.inl he
    · intro _ _
      apply EM.forall_mem_bind
      · intro e he
        simp [runCommand] at he
        exact Or.inr (Or.inl ⟨_, he⟩)
      · intro _ _
        apply EM.forall_mem_bind
        · intro e he
          by_cases hw : env.os = OS.windows <;> simp [hw, runCommand] at he <;>
            exact Or.inr (Or.inl ⟨_, he⟩)
        · intro _ _
          cases hg : globOidn env bd with
          | nil => intro e he; cases he
          | cons p ps =>
            apply EM.forall_mem_bind
            · intro e he
              rcases extract_package_effects env p bd e he with ⟨d, rfl⟩ | ⟨d, rfl⟩
              · exact Or.inr (Or.inr (Or.inr (Or.inl ⟨p, ps, d, hg, rfl⟩)))
              · exact Or.inr (Or.inr (Or.inl ⟨d, rfl⟩))
            · intro _ _
              apply EM.forall_mem_bind
              · intro e he
                by_cases hl : env.os = OS.linux
                · simp only [hl, if_true] at he
                  obtain ⟨b, _, hbe⟩ := EM.forM_effects_elim he
                  obtain ⟨a2, b2, rfl⟩ := check_symbols_linux_effects env b e hbe
                  exact Or.inr (Or.inr (Or.inr (Or.inr (Or.inl ⟨hl, a2, b2, rfl⟩))))
                · simp [hl, EM.pure_eq] at he
              · intro _ _
                apply EM.forall_mem_bind
                · intro e he
                  apply EM.forall_mem_bind (x := List.forM _ _) ?hx ?hf e he
                  case hx =>
                    intro e2 he2
                    obtain ⟨b, _, hbe⟩ := EM.forM_effects_elim he2
                    simp [runCommand] at hbe
                    exact Or.inr (Or.inl ⟨_, hbe⟩)
                  case hf =>
                    intro _ _
                    apply EM.forall_mem_bind
                    · intro e2 he2
                      simp [EM.emit] at he2
                      exact Or.inr (Or.inr (Or.inr (Or.inr (Or.inr (Or.inl ⟨_, he2⟩)))))
                    · intro _ _ e2 he2
                      rcases create_package_effects _ _ e2 he2 with ⟨a2, b2, c2, rfl⟩ | ⟨a2, b2, c2, rfl⟩
                      · exact Or.inr (Or.inr (Or.inr (Or.inr (Or.inr (Or.inr (Or.inl ⟨a2, b2, c2, rfl⟩))))))
                      · exact Or.inr (Or.inr (Or.inr (Or.inr (Or.inr (Or.inr (Or.inr (Or.inl ⟨a2, b2, c2, rfl⟩)))))))
                · intro _ _ e he
                  simp [EM.emit] at he
                  exact Or.inr (Or.inr (Or.inr (Or.inr (Or.inr (Or.inr (Or.inr (Or.inr ⟨_, he⟩)))))))

theorem packageStage_noglob {env : Env} {bd : String}
    (hrun : ∀ c, env.runFails c = false) (hg : globOidn env bd = []) :
    (packageStage env bd).2 = Except.error "list index out of range" := by
  by_cases hw : env.os = OS.windows <;>
    simp [packageStage, EM.bind_eq, EM.bind, EM.emit, runCommand, hrun, hg, hw, EM.throw]

theorem packageStage_extract_mem {env : Env} {bd p : String} {ps : List String}
    {fmt : Fmt} {cp : String}
    (hrun : ∀ c, env.runFails c = false)
    (hglob : globOidn env bd = p :: ps)
    (hfmt : detectFormat p = some fmt)
    (hcp : commonpath (env.members p) = some cp) :
    Effect.extract p (if cp = basename bd then dirname bd else bd) ∈ (packageStage env bd).1 := by
  unfold packageStage
  simp only [EM.bind_eq, hglob]
  apply EM.mem_bind_right (a := ()) (by simp [EM.emit])
  apply EM.mem_bind_right (a := ()) (by simp [runCommand, hrun])
  apply EM.mem_bind_right (a := ())
    (by by_cases hw : env.os = OS.windows <;> simp [hw, runCommand, hrun])
  apply EM.mem_bind_left
  rw [extract_package_ok hfmt hcp]
  simp

theorem packageStage_success {env : Env} {bd p : String} {ps : List String}
    {fmt : Fmt} {cp : String}
    (hrun : ∀ c, env.runFails c = false)
    (hglob : globOidn env bd = p :: ps)
    (hfmt : detectFormat p = some fmt)
    (hcp : commonpath (env.members p) = some cp)
    (hcheck : env.os = OS.linux →
      ∀ b ∈ discoverBinaries env (stripPackageSuffix p),
        (check_symbols_linux env b).2 = Except.ok ())
    (hcreate : ∀ sf, env.signFile = some sf →
      endsWithS ".tar.gz" p = true ∨ endsWithS ".zip" p = true) :
    ∃ es, packageStage env bd = (es ++ [Effect.rmtree (stripPackageSuffix p)], Except.ok ()) := by
  have hcheckSnd : (if env.os = OS.linux then
      (discoverBinaries env (stripPackageSuffix p)).forM (fun f => check_symbols_linux env f)
    else pure ()).2 = Except.ok () := by
    by_cases hl : env.os = OS.linux
    · obtain ⟨es, hes, -⟩ := EM.forM_ok (hcheck hl)
      simp [hl, hes]
    · simp [hl, EM.pure_eq]
  cases hsf : env.signFile with
  | none =>
    unfold packageStage
    simp only [EM.bind_eq, hglob, hsf]
    apply EM.bind_tail () (by simp [EM.emit])
    apply EM.bind_tail () (by simp [runCommand, hrun])
    apply EM.bind_tail ()
      (by by_cases hw : env.os = OS.windows <;> simp [hw, runCommand, hrun])
    apply EM.bind_tail () (by rw [extract_package_ok hfmt hcp])
    apply EM.bind_tail () hcheckSnd
    apply EM.bind_tail () (by simp [EM.pure_eq])
    exact ⟨[], by simp [EM.emit]⟩
  | some sf =>
    unfold packageStage
    simp only [EM.bind_eq, hglob, hsf]
    apply EM.bind_tail () (by simp [EM.emit])
    apply EM.bind_tail () (by simp [runCommand, hrun])
    apply EM.bind_tail ()
      (by by_cases hw : env.os = OS.windows <;> simp [hw, runCommand, hrun])
    apply EM.bind_tail () (by rw [extract_package_ok hfmt hcp])
    apply EM.bind_tail () hcheckSnd
    have hsignSnd : (EM.bind
        ((discoverBinaries env (stripPackageSuffix p)).forM
          (fun f => runCommand env (signCmd sf f)))
        (fun _ => EM.bind (EM.emit (Effect.removeFile p))
          (fun _ => create_package p (stripPackageSuffix p)))).2 = Except.ok () := by
      obtain ⟨es2, hes2, -⟩ := EM.forM_ok
        (g := fun f => runCommand env (signCmd sf f))
        (l := discoverBinaries env (stripPackageSuffix p))
        (fun b _ => by simp [runCommand, hrun])
      obtain ⟨es3, hes3⟩ := create_package_ok (stripPackageSuffix p) (hcreate sf hsf)
      simp [hes2, hes3, EM.bind, EM.emit]
    apply EM.bind_tail () (by simpa [EM.bind_eq] using hsignSnd)
    exact ⟨[], by simp [EM.emit]⟩

theorem EM.bind_snd_ok_elim {α β : Type} {x : EM α} {f : α → EM β} {b : β}
    (h : (EM.bind x f).2 = Except.ok b) :
    ∃ a, x.2 = Except.ok a ∧ (f a).2 = Except.ok b := by
  unfold EM.bind at h
  revert h
  cases hx : x.2 with
  | ok a =>
    intro h
    exact ⟨a, rfl, h⟩
  | error m =>
    intro h
    cases h

theorem setupISPC_cached {env : Env} {depsDir : String}
    (h : env.isdir (pjoin depsDir (ispcRelease env.os)) = true) :
    setupISPC env depsDir =
      ([], Except.ok (pjoin (pjoin (pjoin depsDir (ispcRelease env.os)) "bin") "ispc")) := by
  simp [setupISPC, EM.bind_eq, h, EM.bind, EM.pure_eq]

theorem setupTBB_cached {env : Env} {depsDir : String}
    (h : env.isdir (pjoin depsDir (tbbRelease env.os)) = true) :
    setupTBB env depsDir =
      ([], Except.ok (pjoin (pjoin depsDir (tbbRelease env.os)) "tbb")) := by
  simp [setupTBB, EM.bind_eq, h, EM.bind, EM.pure_eq]

theorem setupISPC_path {env : Env} {depsDir r : String}
    (h : (setupISPC env depsDir).2 = Except.ok r) :
    r = pjoin (pjoin (pjoin depsDir (ispcRelease env.os)) "bin") "ispc" := by
  unfold setupISPC at h
  simp only [EM.bind_eq] at h
  obtain ⟨a, -, h2⟩ := EM.bind_snd_ok_elim h
  simp [EM.pure_eq] at h2
  exact h2.symm

theorem setupTBB_path {env : Env} {depsDir r : String}
    (h : (setupTBB env depsDir).2 = Except.ok r) :
    r = pjoin (pjoin depsDir (tbbRelease env.os)) "tbb" := by
  unfold setupTBB at h
  simp only [EM.bind_eq] at h
  obtain ⟨a, -, h2⟩ := EM.bind_snd_ok_elim h
  simp [EM.pure_eq] at h2
  exact h2.symm

theorem discoverBinaries_mem (env : Env) (pd f : String) :
    f ∈ discoverBinaries env pd ↔
      ((∃ n, n ∈ env.listing (pjoin pd "bin") ∧ startsWithS "." n = false ∧
          f = pjoin (pjoin pd "bin") n) ∨
       (env.os = OS.linux ∧ ∃ n, n ∈ env.listing (pjoin pd "lib") ∧
          startsWithS "." n = false ∧ hasSeq ".so".data n.data = true ∧
          f = pjoin (pjoin pd "lib") n) ∨
       (env.os = OS.macos ∧ ∃ n, n ∈ env.listing (pjoin pd "lib") ∧
          startsWithS "." n = false ∧ endsWithS ".dylib" n = true ∧
          f = pjoin (pjoin pd "lib") n)) ∧
      env.isfile f = true ∧ env.islink f = false := by
  unfold discoverBinaries
  cases hos : env.os <;>
    simp only [hos, List.mem_filter, List.mem_map, List.mem_append, Bool.and_eq_true,
      Bool.not_eq_true', if_true, if_false, List.not_mem_nil, or_false, false_and,
      reduceCtorEq, and_false, false_or, or_self] <;>
    aesop

theorem packageStage_checks_mem {env : Env} {bd p b : String} {ps : List String}
    {fmt : Fmt} {cp : String}
    (hrun : ∀ c, env.runFails c = false)
    (hglob : globOidn env bd = p :: ps)
    (hfmt : detectFormat p = some fmt)
    (hcp : commonpath (env.members p) = some cp)
    (hlin : env.os = OS.linux)
    (hcheck : ∀ x ∈ discoverBinaries env (stripPackageSuffix p),
      (check_symbols_linux env x).2 = Except.ok ())
    (hb : b ∈ discoverBinaries env (stripPackageSuffix p)) :
    Effect.nmPipe b "GLIBC" ∈ (packageStage env bd).1 := by
  unfold packageStage
  simp only [EM.bind_eq, hglob]
  apply EM.mem_bind_right (a := ()) (by simp [EM.emit])
  apply EM.mem_bind_right (a := ()) (by simp [runCommand, hrun])
  apply EM.mem_bind_right (a := ())
    (by by_cases hw : env.os = OS.windows <;> simp [hw, runCommand, hrun])
  apply EM.mem_bind_right (a := ()) (by rw [extract_package_ok hfmt hcp])
  apply EM.mem_bind_left
  simp only [hlin, if_true]
  exact EM.forM_mem hcheck hb (check_symbols_linux_glibc_mem env b)

theorem packageStage_no_checks {env : Env} {bd : String}
    (hnl : env.os ≠ OS.linux) :
    ∀ f l, Effect.nmPipe f l ∉ (packageStage env bd).1 := by
  intro f l hmem
  have h := packageStage_effects env bd _ hmem
  unfold packageEffectShape at h
  rcases h with h | ⟨c, h⟩ | ⟨d, h⟩ | ⟨p, ps, d, -, h⟩ | ⟨hl, -⟩ | ⟨g, h⟩ |
    ⟨a, b2, c, h⟩ | ⟨a, b2, c, h⟩ | ⟨d, h⟩ <;>
    first
      | cases h
      | exact hnl hl

theorem packageStage_extract_unique {env : Env} {bd p : String} {ps : List String}
    (hglob : globOidn env bd = p :: ps) :
    ∀ a d, Effect.extract a d ∈ (packageStage env bd).1 → a = p := by
  intro a d hmem
  have h := packageStage_effects env bd _ hmem
  unfold packageEffectShape at h
  rcases h with h | ⟨c, h⟩ | ⟨d2, h⟩ | ⟨p2, ps2, d2, hg2, h⟩ | ⟨-, a2, b2, h⟩ | ⟨g, h⟩ |
    ⟨a2, b2, c2, h⟩ | ⟨a2, b2, c2, h⟩ | ⟨d2, h⟩
  · cases h
  · cases h
  · cases h
  · cases h
    rw [hglob] at hg2
    injection hg2 with h1 h2
    exact h1.symm
  · cases h
  · cases h
  · cases h
  · cases h
  · cases h

theorem packageStage_no_extract {env : Env} {bd : String}
    (hg : globOidn env bd = []) :
    ∀ a d, Effect.extract a d ∉ (packageStage env bd).1 := by
  intro a d hmem
  have h := packageStage_effects env bd _ hmem
  unfold packageEffectShape at h
  rcases h with h | ⟨c, h⟩ | ⟨d2, h⟩ | ⟨p2, ps2, d2, hg2, h⟩ | ⟨-, a2, b2, h⟩ | ⟨g, h⟩ |
    ⟨a2, b2, c2, h⟩ | ⟨a2, b2, c2, h⟩ | ⟨d2, h⟩
  · cases h
  · cases h
  · cases h
  · rw [hg] at hg2
    cases hg2
  · cases h
  · cases h
  · cases h
  · cases h
  · cases h

theorem check_symbols_lines_single {fname line s : String} {vs ceiling : List Int}
    (h : parseSymbolLine line = Except.ok (s, vs)) :
    (check_symbols_lines fname [line] ceiling ≠ Except.ok ()) ↔
      List.Lex (· < ·) ceiling vs := by
  unfold check_symbols_lines
  rw [h]
  by_cases hgt : pyListGt vs ceiling = true
  · simp only [hgt, if_true]
    constructor
    · intro _
      exact (pyListLt_iff_lex ceiling vs).mp hgt
    · intro _ hcontra
      cases hcontra
  · have hgt2 : pyListGt vs ceiling = false := by
      simpa using hgt
    simp only [hgt2, Bool.false_eq_true, if_false]
    constructor
    · intro hne
      exact absurd rfl hne
    · intro hlex
      exact absurd ((pyListLt_iff_lex ceiling vs).mpr hlex) (by simp [pyListGt] at hgt2 ⊢; exact hgt2)

/-! ## The claims -/

theorem amendedTarFamily_iff (fn : String) : amendedTarFamily fn ↔ tarRe fn = true := by
  unfold amendedTarFamily tarRe
  simp only [Bool.or_eq_true]
  rw [tarDotScan_iff]
  exact or_assoc.symm

/-- C1: for a dynamic-symbol line carrying a recognized ABI label, symbol
checking raises the problematic-symbol error exactly when the parsed
dotted numeric version is lexicographically greater than the ceiling
tuple; in particular, against the GLIBC ceiling `(2, 17, 0)`, version
`2.17.0` passes, `2.16.99` passes, `2.17.1` fails and `3.0.0` fails. -/
theorem claim_C1_symbol_ceiling :
    (∀ fname line s : String, ∀ vs ceiling : List Int,
      parseSymbolLine line = Except.ok (s, vs) →
      ((check_symbols_lines fname [line] ceiling ≠ Except.ok ()) ↔
        List.Lex (· < ·) ceiling vs)) ∧
    check_symbols_lines "libx.so" ["f@@GLIBC_2.17.0"] glibcMax = Except.ok () ∧
    check_symbols_lines "libx.so" ["f@@GLIBC_2.16.99"] glibcMax = Except.ok () ∧
    check_symbols_lines "libx.so" ["f@@GLIBC_2.17.1"] glibcMax =
      Except.error "problematic symbol f@@GLIBC_2.17.1 in libx.so" ∧
    check_symbols_lines "libx.so" ["f@@GLIBC_3.0.0"] glibcMax =
      Except.error "problematic symbol f@@GLIBC_3.0.0 in libx.so" :=
  ⟨fun _ _ _ _ _ h => check_symbols_lines_single h, by decide, by decide, by decide, by decide⟩

/-- Witness for C1 at a concrete symbol line. -/
theorem claim_C1_witness :
    (check_symbols_lines "libx.so" ["f@@GLIBC_2.17.1"] glibcMax ≠ Except.ok ()) ↔
      List.Lex (· < ·) glibcMax [2, 17, 1] :=
  claim_C1_symbol_ceiling.1 "libx.so" "f@@GLIBC_2.17.1" "f@@GLIBC_2.17.1" [2, 17, 1] glibcMax
    (by decide)

/-- C9: a symbol whose dotted version is a strict prefix of the ceiling,
with componentwise equal entries, passes the check: the Python list
comparison ranks a strict prefix below the longer ceiling list.  In
particular version `2.17` passes against the GLIBC ceiling `(2, 17, 0)`. -/
theorem claim_C9_prefix_version_passes :
    (∀ fname line s : String, ∀ ceiling vs : List Int, ∀ k : Nat,
      parseSymbolLine line = Except.ok (s, vs) → vs = ceiling.take k →
      k < ceiling.length →
      check_symbols_lines fname [line] ceiling = Except.ok ()) ∧
    check_symbols_lines "libx.so" ["f@@GLIBC_2.17"] glibcMax = Except.ok () := by
  constructor
  · intro fname line s ceiling vs k h hvs hk
    unfold check_symbols_lines
    rw [h]
    have hgt : pyListGt vs ceiling = false := by
      unfold pyListGt
      rw [hvs]
      exact pyListLt_take ceiling k
    simp [hgt, check_symbols_lines]
  · decide

/-- Witness for C9 at the concrete line `f@@GLIBC_2.17`. -/
theorem claim_C9_witness :
    check_symbols_lines "libx.so" ["f@@GLIBC_2.17"] glibcMax = Except.ok () :=
  claim_C9_prefix_version_passes.1 "libx.so" "f@@GLIBC_2.17" "f@@GLIBC_2.17" glibcMax [2, 17] 2
    (by decide) (by decide) (by decide)

/-- C3 counterexample: the filename `footgz` matches neither the
spec's tar-family suffix pattern (`.tar`, `.tar.*`, `.tgz`) nor `.zip`,
yet `extract_package` does not raise the unsupported-format error — the
code's regex accepts any name ending in the bare letters `tgz`. -/
theorem claim_C3_counterexample :
    detectFormat "footgz" = some Fmt.tar ∧ specTarFamilyPattern "footgz" = false ∧
    endsWithS ".zip" "footgz" = false := by
  refine ⟨by decide, by decide, by decide⟩

/-- C3 (amended): `extract_package` raises the unsupported-format error
exactly when the filename neither matches the tar-family pattern as
implemented (ending in `.tar`, containing `.tar.` followed by at least
one character, or ending in the bare letters `tgz`) nor ends in `.zip`;
when a pattern matches, the corresponding handler is selected, tar
taking precedence. -/
theorem claim_C3_extract_format (fn : String) :
    (detectFormat fn = none ↔ ¬(amendedTarFamily fn ∨ endsWithS ".zip" fn = true)) ∧
    (amendedTarFamily fn → detectFormat fn = some Fmt.tar) ∧
    (¬ amendedTarFamily fn → endsWithS ".zip" fn = true → detectFormat fn = some Fmt.zip) := by
  have hiff := amendedTarFamily_iff fn
  unfold detectFormat
  by_cases ht : tarRe fn = true
  · have ha : amendedTarFamily fn := hiff.mpr ht
    simp [ht, ha]
  · have ha : ¬ amendedTarFamily fn := fun h => ht (hiff.mp h)
    by_cases hz : endsWithS ".zip" fn = true
    · simp [ht, hz, ha]
    · simp [ht, hz, ha]

/-- Witness for C3 at the concrete name `a.tar.gz`. -/
theorem claim_C3_witness : detectFormat "a.tar.gz" = some Fmt.tar :=
  (claim_C3_extract_format "a.tar.gz").2.1
    (Or.inr (Or.inl ⟨['a'], ['g', 'z'], by decide, by decide⟩))

/-- C4: on an archive whose member list yields a common path (in
particular a non-empty archive), extraction targets the parent of
`outputDir` exactly when the common path equals the basename of
`outputDir`, and `outputDir` itself otherwise; the target directory and
its parents are created first exactly when the target is absent. -/
theorem claim_C4_extract_target :
    ∀ (env : Env) (fn od : String) (fmt : Fmt) (cp : String),
      detectFormat fn = some fmt →
      commonpath (env.members fn) = some cp →
      extract_package env fn od =
        ((if env.isdir (if cp = basename od then dirname od else od) then []
          else [Effect.makedirs (if cp = basename od then dirname od else od)]) ++
          [Effect.extract fn (if cp = basename od then dirname od else od)],
         Except.ok ()) :=
  fun _ _ _ _ _ hfmt hcp => extract_package_ok hfmt hcp

/-- Witness for C4: a run in which the common path of the members equals
the basename of the output directory, so the content lands one level up. -/
theorem claim_C4_witness :
    extract_package envLinux "a.tar.gz" "x/oidn-1.0" =
      ([Effect.extract "a.tar.gz" "x"], Except.ok ()) := by
  have h := claim_C4_extract_target envLinux "a.tar.gz" "x/oidn-1.0" Fmt.tar "oidn-1.0"
    (by decide) (by decide)
  rw [h]
  decide

/-- C7: `create_package` raises the unsupported-format error exactly for
output names ending neither in `.tar.gz` nor `.zip`; a `.tar.gz` name
archives the input directory under its own basename as the root entry, a
`.zip` name produces a zip archive, and the `.tgz` name accepted by
`extract_package` is rejected by `create_package`. -/
theorem claim_C7_create_formats :
    (∀ fn d : String,
      ((create_package fn d).2 = Except.error "unsupported package format" ↔
        ¬(endsWithS ".tar.gz" fn = true ∨ endsWithS ".zip" fn = true))) ∧
    (∀ fn d : String, endsWithS ".tar.gz" fn = true →
      create_package fn d = ([Effect.createTarGz fn d (basename d)], Except.ok ())) ∧
    (∀ fn d : String, endsWithS ".tar.gz" fn = false → endsWithS ".zip" fn = true →
      create_package fn d =
        ([Effect.createZip (dropLastChars 4 fn) (dirname d) (basename d)], Except.ok ())) ∧
    (∀ d : String, (create_package "x.tgz" d).2 = Except.error "unsupported package format") ∧
    detectFormat "x.tgz" = some Fmt.tar := by
  refine ⟨?_, ?_, ?_, ?_, by decide⟩
  · intro fn d
    by_cases h1 : endsWithS ".tar.gz" fn = true
    · simp [create_package, h1]
    · by_cases h2 : endsWithS ".zip" fn = true
      · simp [create_package, h1, h2]
      · simp [create_package, h1, h2, EM.throw]
  · intro fn d h1
    simp [create_package, h1]
  · intro fn d h1 h2
    simp [create_package, h1, h2]
  · intro d
    have h1 : endsWithS ".tar.gz" "x.tgz" = false := by decide
    have h2 : endsWithS ".zip" "x.tgz" = false := by decide
    simp [create_package, h1, h2, EM.throw]

/-- Witness for C7 at a concrete `.tar.gz` output name. -/
theorem claim_C7_witness :
    create_package "o/oidn-1.0.tar.gz" "o/oidn-1.0" =
      ([Effect.createTarGz "o/oidn-1.0.tar.gz" "o/oidn-1.0" "oidn-1.0"], Except.ok ()) := by
  have h := claim_C7_create_formats.2.1 "o/oidn-1.0.tar.gz" "o/oidn-1.0" (by decide)
  rw [h]
  decide

/-- C5: dependency provisioning is idempotent — when the per-platform
local directory of a dependency already exists under the deps directory,
its setup performs no effect at all (in particular no download and no
extraction) and returns the same dependency root path that any
successful run (cached or not) returns. -/
theorem claim_C5_dependency_idempotent :
    ∀ (env : Env) (depsDir : String),
      env.isdir (pjoin depsDir (ispcRelease env.os)) = true →
      env.isdir (pjoin depsDir (tbbRelease env.os)) = true →
      (setupISPC env depsDir =
        ([], Except.ok (pjoin (pjoin (pjoin depsDir (ispcRelease env.os)) "bin") "ispc"))) ∧
      (setupTBB env depsDir =
        ([], Except.ok (pjoin (pjoin depsDir (tbbRelease env.os)) "tbb"))) ∧
      (∀ env2 r, env2.os = env.os → (setupISPC env2 depsDir).2 = Except.ok r →
        r = pjoin (pjoin (pjoin depsDir (ispcRelease env.os)) "bin") "ispc") ∧
      (∀ env2 r, env2.os = env.os → (setupTBB env2 depsDir).2 = Except.ok r →
        r = pjoin (pjoin depsDir (tbbRelease env.os)) "tbb") := by
  intro env depsDir h1 h2
  refine ⟨setupISPC_cached h1, setupTBB_cached h2, ?_, ?_⟩
  · intro env2 r hos h
    rw [setupISPC_path h, hos]
  · intro env2 r hos h
    rw [setupTBB_path h, hos]

/-- Witness for C5: both dependency directories pre-exist, both setups
yield their root paths with an empty effect trace. -/
theorem claim_C5_witness :
    setupISPC envLinux "r/deps" = ([], Except.ok "r/deps/ispc-v1.13.0-linux/bin/ispc") ∧
    setupTBB envLinux "r/deps" = ([], Except.ok "r/deps/tbb-2020.2-lin/tbb") := by
  have h := claim_C5_dependency_idempotent envLinux "r/deps" (by decide) (by decide)
  refine ⟨?_, ?_⟩
  · rw [h.1]
    decide
  · rw [h.2.1]
    decide

/-- C6: when the `oidn-*` glob over the build directory yields no match,
the package stage aborts with the index error before any extraction
occurs; when matches exist, the extraction uses exactly the first match. -/
theorem claim_C6_package_glob :
    ∀ (env : Env) (bd : String), (∀ c, env.runFails c = false) →
      (globOidn env bd = [] →
        (packageStage env bd).2 = Except.error "list index out of range" ∧
        ∀ a d, Effect.extract a d ∉ (packageStage env bd).1) ∧
      (∀ p ps, globOidn env bd = p :: ps →
        ∀ a d, Effect.extract a d ∈ (packageStage env bd).1 → a = p) ∧
      (∀ p ps fmt cp, globOidn env bd = p :: ps → detectFormat p = some fmt →
        commonpath (env.members p) = some cp →
        Effect.extract p (if cp = basename bd then dirname bd else bd) ∈
          (packageStage env bd).1) := by
  intro env bd hrun
  refine ⟨fun hg => ⟨packageStage_noglob hrun hg, packageStage_no_extract hg⟩,
    fun p ps hg => packageStage_extract_unique hg,
    fun p ps fmt cp hg hfmt hcp => packageStage_extract_mem hrun hg hfmt hcp⟩

/-- Witness for C6: a run whose glob is empty aborts with the index
error, and a run with one match extracts that match. -/
theorem claim_C6_witness :
    (packageStage envNoPkg "r/build_release").2 = Except.error "list index out of range" ∧
    Effect.extract "r/build_release/oidn-1.0.tar.gz" "r/build_release" ∈
      (packageStage envLinux "r/build_release").1 := by
  constructor
  · exact ((claim_C6_package_glob envNoPkg "r/build_release" (fun c => rfl)).1 (by decide)).1
  · have h := (claim_C6_package_glob envLinux "r/build_release" (fun c => rfl)).2.2
      "r/build_release/oidn-1.0.tar.gz" [] Fmt.tar "oidn-1.0" (by decide) (by decide) (by decide)
    have he : (if ("oidn-1.0" : String) = basename "r/build_release"
        then dirname "r/build_release" else "r/build_release") = "r/build_release" := by decide
    rw [he] at h
    exact h

/-- C2 counterexample: in a package-stage run in which the configured
signing command fails, the run aborts and the extracted package
directory is never removed — `shutil.rmtree` is not reached. -/
theorem claim_C2_counterexample :
    (packageStage envSignFail "r/build_release").2 = Except.error "non-zero return value" ∧
    Effect.rmtree "r/build_release/oidn-1.0" ∉ (packageStage envSignFail "r/build_release").1 := by
  refine ⟨by decide, by decide⟩

/-- C2 (amended): in every package-stage run in which every step
succeeds — the shell commands, the extraction, the per-binary symbol
checks on Linux, and repacking when a signing tool is configured — the
extracted package directory is removed at the very end of the stage,
whether or not a signing tool is configured; when a later step fails,
the run aborts before the removal (see the counterexample). -/
theorem claim_C2_extracted_dir_removed :
    ∀ (env : Env) (bd p : String) (ps : List String) (fmt : Fmt) (cp : String),
      (∀ c, env.runFails c = false) →
      globOidn env bd = p :: ps →
      detectFormat p = some fmt →
      commonpath (env.members p) = some cp →
      (env.os = OS.linux →
        ∀ b ∈ discoverBinaries env (stripPackageSuffix p),
          (check_symbols_linux env b).2 = Except.ok ()) →
      (∀ sf, env.signFile = some sf →
        endsWithS ".tar.gz" p = true ∨ endsWithS ".zip" p = true) →
      ∃ es, packageStage env bd =
        (es ++ [Effect.rmtree (stripPackageSuffix p)], Except.ok ()) :=
  fun _ _ _ _ _ _ hrun hglob hfmt hcp hcheck hcreate =>
    packageStage_success hrun hglob hfmt hcp hcheck hcreate

/-- Witness for C2: a fully successful signed run ends by removing the
extracted directory. -/
theorem claim_C2_witness :
    ∃ es, packageStage envLinux "r/build_release" =
      (es ++ [Effect.rmtree (stripPackageSuffix "r/build_release/oidn-1.0.tar.gz")],
       Except.ok ()) :=
  claim_C2_extracted_dir_removed envLinux "r/build_release" "r/build_release/oidn-1.0.tar.gz"
    [] Fmt.tar "oidn-1.0" (fun c => rfl) (by decide) (by decide) (by decide)
    (by decide) (by decide)

/-- C8: binary discovery collects exactly the non-hidden entries of
`bin/*` on every platform, plus `lib/*.so*` on Linux and `lib/*.dylib`
on macOS, excluding symbolic links and non-regular files; in a Linux
package-stage run every discovered binary is passed through symbol
checking, and on non-Linux platforms no symbol pipeline ever runs. -/
theorem claim_C8_binary_discovery :
    ∀ (env : Env) (bd p : String) (ps : List String) (fmt : Fmt) (cp : String),
      (∀ c, env.runFails c = false) →
      globOidn env bd = p :: ps →
      detectFormat p = some fmt →
      commonpath (env.members p) = some cp →
      (∀ pd f, f ∈ discoverBinaries env pd ↔
        ((∃ n, n ∈ env.listing (pjoin pd "bin") ∧ startsWithS "." n = false ∧
            f = pjoin (pjoin pd "bin") n) ∨
         (env.os = OS.linux ∧ ∃ n, n ∈ env.listing (pjoin pd "lib") ∧
            startsWithS "." n = false ∧ hasSeq ".so".data n.data = true ∧
            f = pjoin (pjoin pd "lib") n) ∨
         (env.os = OS.macos ∧ ∃ n, n ∈ env.listing (pjoin pd "lib") ∧
            startsWithS "." n = false ∧ endsWithS ".dylib" n = true ∧
            f = pjoin (pjoin pd "lib") n)) ∧
        env.isfile f = true ∧ env.islink f = false) ∧
      (env.os = OS.linux →
        (∀ x ∈ discoverBinaries env (stripPackageSuffix p),
          (check_symbols_linux env x).2 = Except.ok ()) →
        ∀ b ∈ discoverBinaries env (stripPackageSuffix p),
          Effect.nmPipe b "GLIBC" ∈ (packageStage env bd).1) ∧
      (env.os ≠ OS.linux → ∀ f l, Effect.nmPipe f l ∉ (packageStage env bd).1) := by
  intro env bd p ps fmt cp hrun hglob hfmt hcp
  refine ⟨discoverBinaries_mem env, ?_, fun hnl => packageStage_no_checks hnl⟩
  intro hlin hcheck b hb
  exact packageStage_checks_mem hrun hglob hfmt hcp hlin hcheck hb

/-- Witness for C8: in the concrete Linux run the discovered binary goes
through the GLIBC symbol pipeline. -/
theorem claim_C8_witness :
    Effect.nmPipe "r/build_release/oidn-1.0/bin/denoise" "GLIBC" ∈
      (packageStage envLinux "r/build_release").1 :=
  (claim_C8_binary_discovery envLinux "r/build_release" "r/build_release/oidn-1.0.tar.gz"
    [] Fmt.tar "oidn-1.0" (fun c => rfl) (by decide) (by decide) (by decide)).2.1 rfl
    (by decide) "r/build_release/oidn-1.0/bin/denoise" (by decide)

/-- C10: with no stage selected, the whole run only ensures the deps
directory exists — it creates it exactly when it is absent, performs no
other effect, and succeeds. -/
theorem claim_C10_no_stage :
    ∀ env : Env, env.stageBuild = false → env.stagePackage = false →
      mainModel env =
        ((if env.isdir (pjoin env.rootDir "deps") then []
          else [Effect.makedirs (pjoin env.rootDir "deps")]),
         Except.ok ()) := by
  intro env h1 h2
  by_cases hd : env.isdir (pjoin env.rootDir "deps") <;>
    simp [mainModel, EM.bind_eq, EM.bind, EM.emit, EM.pure_eq, h1, h2, hd]

/-- Witness for C10: a concrete stageless run with no pre-existing
directories creates exactly the deps directory. -/
theorem claim_C10_witness :
    mainModel envNoStage = ([Effect.makedirs "r/deps"], Except.ok ()) := by
  have h := claim_C10_no_stage envNoStage rfl rfl
  rw [h]
  decide
